import Mathlib

/-!
Shallow embedding of `src/main.py` (a FastAPI service with a concurrent
"calculate" endpoint and appeal-form validators).

Modelling conventions:
* Python floats are modelled as exact rationals (`ℚ`).
* `round(x, 2)` is modelled as round-half-to-even at two decimal places.
* The asyncio timing core (`time.perf_counter`, `asyncio.sleep`,
  `asyncio.gather`) is given an idealized virtual-time semantics with zero
  scheduler jitter: `asyncio.sleep d` suspends for `max d 0` virtual time
  (a non-positive delay yields immediately), the squaring itself costs no
  time, and `gather` of independent sleeping tasks completes when the
  slowest task does, so the measured wall-clock span of the fan-out is the
  maximum of the per-task sleep times.
* The pydantic schema layer (`CalculateRequest` with `min_items=1` on both
  lists) is modelled as a validation step that runs before the handler body
  and fails with the framework's standard validation error (HTTP 422);
  the handler's own `HTTPException(status_code=400, ...)` is a distinct
  error constructor carrying the detail message.
* Strings are Lean `String`s; the regexes of `main.py` are compiled by hand
  into character-level predicates (ASCII digits and the exact Cyrillic
  ranges named in the source patterns).
-/

namespace WebBack

/-- Round-half-to-even of a rational to an integer (Python's `round` on the
exact value). -/
def roundHalfEven (q : ℚ) : ℤ :=
  if q - ⌊q⌋ < 1/2 then ⌊q⌋
  else if 1/2 < q - ⌊q⌋ then ⌊q⌋ + 1
  else if ⌊q⌋ % 2 = 0 then ⌊q⌋ else ⌊q⌋ + 1

/-- Python `round(x, 2)`: round half to even at two decimal places. -/
def round2 (q : ℚ) : ℚ := (roundHalfEven (q * 100) : ℚ) / 100

/-- Virtual duration of `asyncio.sleep delay`: a negative delay yields
immediately (zero elapsed time). -/
def sleepTime (delay : ℚ) : ℚ := max delay 0

/-- `ResultItem` pydantic model (src/main.py lines 27-31). -/
structure ResultItem where
  number : ℚ
  square : ℚ
  delay : ℚ
  time : ℚ
deriving DecidableEq, Repr

/-- `CalculateResponse` pydantic model (src/main.py lines 34-37). -/
structure CalculateResponse where
  results : List ResultItem
  total_time : ℚ
  parallel_faster_than_sequential : Bool
deriving DecidableEq, Repr

/-- Errors the `/calculate/` pipeline can raise: the framework's standard
schema-validation response (HTTP 422), or the handler's explicit
`HTTPException` with status 400 and a detail message. -/
inductive CalcError where
  | validationError : CalcError
  | badRequest : String → CalcError
deriving DecidableEq, Repr

/-- `calc_square` (src/main.py lines 120-130) under the virtual-time
semantics: the measured per-unit elapsed time equals the sleep duration. -/
def calc_square (number delay : ℚ) : ResultItem :=
  { number := number
    square := number ^ 2
    delay := delay
    time := round2 (sleepTime delay) }

/-- Virtual wall-clock span of `asyncio.gather` over the per-pair tasks:
the maximum of the sleep times (zero when there are no tasks). -/
def rawTotal (delays : List ℚ) : ℚ :=
  delays.foldr (fun d a => max (sleepTime d) a) 0

/-- The pydantic schema of `CalculateRequest` (src/main.py lines 22-24):
both lists need at least one item (`min_items=1`); no other constraint
(in particular no sign constraint on delays). -/
def calculateRequestSchemaOk (numbers delays : List ℚ) : Bool :=
  !numbers.isEmpty && !delays.isEmpty

/-- The `/calculate/` pipeline (schema validation, then the `calculate`
handler, src/main.py lines 152-174). -/
def calculate (numbers delays : List ℚ) : Except CalcError CalculateResponse :=
  if ¬ (calculateRequestSchemaOk numbers delays = true) then
    Except.error CalcError.validationError
  else if numbers.length ≠ delays.length then
    Except.error (CalcError.badRequest "numbers and delays must have the same length")
  else
    let results := (numbers.zip delays).map (fun p => calc_square p.1 p.2)
    let total_parallel_time := rawTotal delays
    let sequential_time := delays.sum
    Except.ok
      { results := results
        total_time := round2 total_parallel_time
        parallel_faster_than_sequential := decide (total_parallel_time < sequential_time) }

/-- Default item for positional access in theorem statements. -/
def dummyItem : ResultItem := { number := 0, square := 0, delay := 0, time := 0 }

/-- The results list of a pipeline outcome (empty on error; an error
response carries no results array). -/
def responseResults (e : Except CalcError CalculateResponse) : List ResultItem :=
  match e with
  | Except.ok r => r.results
  | Except.error _ => []

/-! ### Appeal-form validators (src/main.py lines 39-79) -/

/-- Characters matched by the separator class `[\s\-\(\)]` of
`validate_phone` (Python `\s` restricted to its ASCII members). -/
def isSeparator (c : Char) : Bool :=
  c = ' ' || c = '\t' || c = '\n' || c = '\r' || c = '\x0b' || c = '\x0c' ||
  c = '-' || c = '(' || c = ')'

/-- `re.sub(r"[\s\-\(\)]", "", v)`: delete every separator character. -/
def cleanPhone (v : String) : String :=
  String.mk (v.data.filter (fun c => !isSeparator c))

/-- ASCII decimal digit (`\d` of the source regex, restricted to ASCII). -/
def isDigitChar (c : Char) : Bool := '0' ≤ c && c ≤ '9'

/-- `re.fullmatch(r"(\+7|7|8)\d{10}", s)`: the whole string is `+7`, `7`
or `8` followed by exactly ten digits. -/
def phoneFormatOk (s : List Char) : Bool :=
  match s with
  | '+' :: '7' :: rest => rest.length = 10 && rest.all isDigitChar
  | '7' :: rest => rest.length = 10 && rest.all isDigitChar
  | '8' :: rest => rest.length = 10 && rest.all isDigitChar
  | _ => false

/-- `AppealTask1.validate_phone` (src/main.py lines 64-72): strip the
separators, require the cleaned string to match the phone regex, and store
the cleaned string; `none` models the raised `ValueError`. -/
def validate_phone (v : String) : Option String :=
  let cleaned := cleanPhone v
  if phoneFormatOk cleaned.data then some cleaned else none

/-- The character class `[А-ЯЁ]` of `validate_cyrillic_capitalized`:
uppercase Cyrillic А (U+0410) through Я (U+042F), plus Ё (U+0401). -/
def isUpperCyrillic (c : Char) : Bool := ('А' ≤ c && c ≤ 'Я') || c = 'Ё'

/-- The character class `[а-яё]`: lowercase Cyrillic а (U+0430) through
я (U+044F), plus ё (U+0451). -/
def isLowerCyrillic (c : Char) : Bool := ('а' ≤ c && c ≤ 'я') || c = 'ё'

/-- `re.fullmatch(r"[А-ЯЁ][а-яё]+", s)`: one uppercase Cyrillic letter
followed by one or more lowercase Cyrillic letters. -/
def nameFormatOk (s : List Char) : Bool :=
  match s with
  | c :: rest => isUpperCyrillic c && !rest.isEmpty && rest.all isLowerCyrillic
  | [] => false

/-- `validate_cyrillic_capitalized` (src/main.py lines 39-45): accept the
value unchanged when it matches the pattern; `none` models the raised
`ValueError`. -/
def validate_cyrillic_capitalized (v : String) : Option String :=
  if nameFormatOk v.data then some v else none

/-! ### Helper lemmas -/

lemma sleepTime_nonneg (d : ℚ) : 0 ≤ sleepTime d := le_max_right d 0

lemma sleepTime_of_nonneg {d : ℚ} (h : 0 ≤ d) : sleepTime d = d := max_eq_left h

lemma rawTotal_nil : rawTotal ([] : List ℚ) = 0 := rfl

lemma rawTotal_cons (d : ℚ) (l : List ℚ) :
    rawTotal (d :: l) = max (sleepTime d) (rawTotal l) := rfl

lemma rawTotal_nonneg (l : List ℚ) : 0 ≤ rawTotal l := by
  induction l with
  | nil => exact le_refl 0
  | cons d t ih => exact le_trans ih (le_max_right _ _)

lemma rawTotal_singleton (d : ℚ) : rawTotal [d] = sleepTime d := by
  rw [rawTotal_cons, rawTotal_nil]
  exact max_eq_left (sleepTime_nonneg d)

/-- Evaluation rule for `round2` when the scaled value rounds down
(fractional part strictly below one half). -/
lemma round2_eq_of_floor (q : ℚ) (n : ℤ) (hle : (n : ℚ) ≤ q * 100)
    (hlt : q * 100 < n + 1) (hr : q * 100 - n < 1/2) :
    round2 q = (n : ℚ) / 100 := by
  have hf : ⌊q * 100⌋ = n := Int.floor_eq_iff.mpr ⟨hle, by exact_mod_cast hlt⟩
  simp only [round2, roundHalfEven, hf]
  rw [if_pos hr]

/-- Inversion: a successful `calculate` run passed both guards and its
response is exactly the record built by the handler. -/
lemma calculate_ok_inv {numbers delays : List ℚ} {r : CalculateResponse}
    (h : calculate numbers delays = Except.ok r) :
    numbers ≠ [] ∧ delays ≠ [] ∧ numbers.length = delays.length ∧
    r = { results := (numbers.zip delays).map (fun p => calc_square p.1 p.2)
          total_time := round2 (rawTotal delays)
          parallel_faster_than_sequential := decide (rawTotal delays < delays.sum) } := by
  by_cases h1 : calculateRequestSchemaOk numbers delays = true
  · by_cases h2 : numbers.length = delays.length
    · have hne : numbers ≠ [] ∧ delays ≠ [] := by
        simp only [calculateRequestSchemaOk, Bool.and_eq_true, Bool.not_eq_true',
          List.isEmpty_eq_false] at h1
        exact ⟨List.ne_nil_of_length_pos (List.length_pos.mpr h1.1),
               List.ne_nil_of_length_pos (List.length_pos.mpr h1.2)⟩
      refine ⟨hne.1, hne.2, h2, ?_⟩
      simp [calculate, h1, h2] at h
      exact h.symm
    · simp [calculate, h1, h2] at h
  · simp [calculate, h1] at h

/-- Forward evaluation: when both guards pass, the response is the record
built by the handler. -/
lemma calculate_eq_ok {numbers delays : List ℚ} (h1 : numbers ≠ []) (h2 : delays ≠ [])
    (h3 : numbers.length = delays.length) :
    calculate numbers delays = Except.ok
      { results := (numbers.zip delays).map (fun p => calc_square p.1 p.2)
        total_time := round2 (rawTotal delays)
        parallel_faster_than_sequential := decide (rawTotal delays < delays.sum) } := by
  have hs : calculateRequestSchemaOk numbers delays = true := by
    simp [calculateRequestSchemaOk, List.isEmpty_iff, h1, h2]
  simp [calculate, hs, h3]

/-! ### Claims -/

/-- Claim C7: a calculate request with an empty `numbers` or `delays`
sequence fails at the schema layer (`min_items=1`) with the framework's
standard validation-error response; the handler body (and hence any
computation unit) never runs and no results are produced. -/
theorem C7_empty_input_rejected (numbers delays : List ℚ)
    (h : numbers = [] ∨ delays = []) :
    calculate numbers delays = Except.error CalcError.validationError := by
  rcases h with h | h <;> subst h <;>
    simp [calculate, calculateRequestSchemaOk]

/-- Witness for C7 at the concrete input `numbers = []`, `delays = [1]`. -/
theorem C7_witness :
    calculate ([] : List ℚ) [1] = Except.error CalcError.validationError :=
  C7_empty_input_rejected [] [1] (Or.inl rfl)

/-- Counterexample to claim C5 as stated: the request `numbers = []`,
`delays = [1]` has mismatched lengths, yet the pipeline rejects it with
the schema-validation error (HTTP 422), not the HTTP 400 error carrying
the message `"numbers and delays must have the same length"`. -/
theorem C5_counterexample :
    (([] : List ℚ).length ≠ ([(1 : ℚ)]).length) ∧
    calculate ([] : List ℚ) [1] = Except.error CalcError.validationError ∧
    CalcError.validationError ≠
      CalcError.badRequest "numbers and delays must have the same length" := by
  refine ⟨by decide, ?_, by simp⟩
  simp [calculate, calculateRequestSchemaOk]

/-- Claim C5 (amended): a mismatched-length request never yields a success
response; and whenever such a request passes the schema layer (both lists
non-empty), it fails with HTTP 400 carrying exactly the message
`"numbers and delays must have the same length"`. -/
theorem C5_length_mismatch_rejected (numbers delays : List ℚ)
    (hmm : numbers.length ≠ delays.length) :
    (∀ r : CalculateResponse, calculate numbers delays ≠ Except.ok r) ∧
    (numbers ≠ [] → delays ≠ [] →
      calculate numbers delays =
        Except.error (CalcError.badRequest "numbers and delays must have the same length")) := by
  constructor
  · intro r h
    rcases calculate_ok_inv h with ⟨-, -, hlen, -⟩
    exact hmm hlen
  · intro h1 h2
    have hs : calculateRequestSchemaOk numbers delays = true := by
      simp [calculateRequestSchemaOk, List.isEmpty_iff, h1, h2]
    simp [calculate, hs, hmm]

/-- Witness for C5 at the spec's own scenario `numbers = [1,2,3]`,
`delays = [0.1, 0.2]`. -/
theorem C5_witness :
    calculate [(1 : ℚ), 2, 3] [1/10, 1/5] =
      Except.error (CalcError.badRequest "numbers and delays must have the same length") :=
  (C5_length_mismatch_rejected [1, 2, 3] [1/10, 1/5] (by decide)).2 (by simp) (by simp)

/-- Counterexample to claim C2 as stated: for `numbers = [1]`,
`delays = [0.204]` the virtual measured time equals `0.204 = sum(delays)`,
so the handler sets the boolean to `false`, while the response's rounded
`total_time` field is `0.2`, which is strictly below `sum(delays)`; the
boolean therefore differs from `(total_time field < sum(delays))`. -/
theorem C2_counterexample :
    calculate [(1 : ℚ)] [51/250] =
      Except.ok { results := [{ number := 1, square := 1, delay := 51/250, time := 1/5 }]
                  total_time := 1/5
                  parallel_faster_than_sequential := false } ∧
    ((1 : ℚ)/5 < ([(51 : ℚ)/250]).sum) := by
  have hst : sleepTime ((51 : ℚ)/250) = 51/250 := sleepTime_of_nonneg (by norm_num)
  have hrt : rawTotal [(51 : ℚ)/250] = 51/250 := by rw [rawTotal_singleton, hst]
  have hr2 : round2 ((51 : ℚ)/250) = 1/5 := by
    rw [round2_eq_of_floor (51/250) 20 (by norm_num) (by norm_num) (by norm_num)]
    norm_num
  have hitem : calc_square 1 ((51 : ℚ)/250) =
      { number := 1, square := 1, delay := 51/250, time := 1/5 } := by
    simp only [calc_square]
    rw [hst, hr2]
    norm_num
  have hbool : decide ((51 : ℚ)/250 < ([(51 : ℚ)/250]).sum) = false := by
    simp only [List.sum_cons, List.sum_nil, decide_eq_false_iff_not]
    norm_num
  refine ⟨?_, by simp only [List.sum_cons, List.sum_nil]; norm_num⟩
  rw [calculate_eq_ok (by simp) (by simp) (by decide)]
  simp only [List.zip_cons_cons, List.zip_nil_right, List.map_cons, List.map_nil,
    hitem, hrt, hr2, hbool]

/-- Claim C2 (amended): for every successful calculate response, the
returned boolean `parallel_faster_than_sequential` equals the comparison
of the unrounded measured total time against `sum(delays)` (the rounded
`total_time` field is not the value being compared). -/
theorem C2_consistency_with_raw_total (numbers delays : List ℚ) (r : CalculateResponse)
    (h : calculate numbers delays = Except.ok r) :
    r.parallel_faster_than_sequential = decide (rawTotal delays < delays.sum) := by
  rcases calculate_ok_inv h with ⟨-, -, -, hr⟩
  subst hr
  rfl

/-- Witness for C2 (amended) at `numbers = [1]`, `delays = [0.1]`. -/
theorem C2_witness :
    (false : Bool) = decide (rawTotal [(1 : ℚ)/10] < ([(1 : ℚ)/10]).sum) :=
  C2_consistency_with_raw_total [1] [1/10]
    { results := [{ number := 1, square := 1, delay := 1/10, time := 1/10 }]
      total_time := 1/10
      parallel_faster_than_sequential := false }
    (by
      have hst : sleepTime ((1 : ℚ)/10) = 1/10 := sleepTime_of_nonneg (by norm_num)
      have hrt : rawTotal [(1 : ℚ)/10] = 1/10 := by rw [rawTotal_singleton, hst]
      have hr2 : round2 ((1 : ℚ)/10) = 1/10 := by
        rw [round2_eq_of_floor (1/10) 10 (by norm_num) (by norm_num) (by norm_num)]
        norm_num
      have hitem : calc_square 1 ((1 : ℚ)/10) =
          { number := 1, square := 1, delay := 1/10, time := 1/10 } := by
        simp only [calc_square]
        rw [hst, hr2]
        norm_num
      have hbool : decide ((1 : ℚ)/10 < ([(1 : ℚ)/10]).sum) = false := by
        simp only [List.sum_cons, List.sum_nil, decide_eq_false_iff_not]
        norm_num
      rw [calculate_eq_ok (by simp) (by simp) (by decide)]
      simp only [List.zip_cons_cons, List.zip_nil_right, List.map_cons, List.map_nil,
        hitem, hrt, hr2, hbool])

/-- Claim C3, behavior at the failing input: the request `numbers = [1]`,
`delays = [-1]` contains a negative delay, yet it passes the declared
schema (which has no sign constraint) and the handler returns a success
response with results; no `InvalidDelay` rejection exists anywhere in the
pipeline (the negative sleep completes immediately with zero elapsed
time). -/
theorem C3_negative_delay_accepted :
    calculateRequestSchemaOk [(1 : ℚ)] [-1] = true ∧
    calculate [(1 : ℚ)] [-1] =
      Except.ok { results := [{ number := 1, square := 1, delay := -1, time := 0 }]
                  total_time := 0
                  parallel_faster_than_sequential := false } := by
  have hst : sleepTime (-1 : ℚ) = 0 := max_eq_right (by norm_num)
  have hrt : rawTotal [(-1 : ℚ)] = 0 := by rw [rawTotal_singleton, hst]
  have hr2 : round2 (0 : ℚ) = 0 := by
    rw [round2_eq_of_floor 0 0 (by norm_num) (by norm_num) (by norm_num)]
    norm_num
  have hitem : calc_square 1 (-1 : ℚ) =
      { number := 1, square := 1, delay := -1, time := 0 } := by
    simp only [calc_square]
    rw [hst, hr2]
    norm_num
  have hbool : decide ((0 : ℚ) < ([(-1 : ℚ)]).sum) = false := by
    simp only [List.sum_cons, List.sum_nil, decide_eq_false_iff_not]
    norm_num
  refine ⟨by simp [calculateRequestSchemaOk], ?_⟩
  rw [calculate_eq_ok (by simp) (by simp) (by decide)]
  simp only [List.zip_cons_cons, List.zip_nil_right, List.map_cons, List.map_nil,
    hitem, hrt, hr2, hbool]

/-- Claim C4: for every successful calculate run, the returned boolean is
computed from the unrounded measured total time, while the payload's
`total_time` and per-result `time` fields carry the two-decimal rounded
values; rounding never influences the boolean. -/
theorem C4_rounding_is_cosmetic (numbers delays : List ℚ) (r : CalculateResponse)
    (h : calculate numbers delays = Except.ok r) :
    r.parallel_faster_than_sequential = decide (rawTotal delays < delays.sum) ∧
    r.total_time = round2 (rawTotal delays) ∧
    ∀ item ∈ r.results, item.time = round2 (sleepTime item.delay) := by
  rcases calculate_ok_inv h with ⟨-, -, -, hr⟩
  subst hr
  refine ⟨rfl, rfl, ?_⟩
  intro item hitem
  simp only [List.mem_map] at hitem
  obtain ⟨p, -, hp⟩ := hitem
  subst hp
  rfl

/-- Witness for C4 at `numbers = [2]`, `delays = [0.2]`. -/
theorem C4_witness :
    (false : Bool) = decide (rawTotal [(1 : ℚ)/5] < ([(1 : ℚ)/5]).sum) ∧
    ((1 : ℚ)/5) = round2 (rawTotal [(1 : ℚ)/5]) ∧
    ((1 : ℚ)/5) = round2 (sleepTime ((1 : ℚ)/5)) := by
  have hst : sleepTime ((1 : ℚ)/5) = 1/5 := sleepTime_of_nonneg (by norm_num)
  have hrt : rawTotal [(1 : ℚ)/5] = 1/5 := by rw [rawTotal_singleton, hst]
  have hr2 : round2 ((1 : ℚ)/5) = 1/5 := by
    rw [round2_eq_of_floor (1/5) 20 (by norm_num) (by norm_num) (by norm_num)]
    norm_num
  have hitem : calc_square 2 ((1 : ℚ)/5) =
      { number := 2, square := 4, delay := 1/5, time := 1/5 } := by
    simp only [calc_square]
    rw [hst, hr2]
    norm_num
  have hbool : decide ((1 : ℚ)/5 < ([(1 : ℚ)/5]).sum) = false := by
    simp only [List.sum_cons, List.sum_nil, decide_eq_false_iff_not]
    norm_num
  have hc : calculate [(2 : ℚ)] [1/5] =
      Except.ok { results := [{ number := 2, square := 4, delay := 1/5, time := 1/5 }]
                  total_time := 1/5
                  parallel_faster_than_sequential := false } := by
    rw [calculate_eq_ok (by simp) (by simp) (by decide)]
    simp only [List.zip_cons_cons, List.zip_nil_right, List.map_cons, List.map_nil,
      hitem, hrt, hr2, hbool]
  have h := C4_rounding_is_cosmetic [2] [1/5]
    { results := [{ number := 2, square := 4, delay := 1/5, time := 1/5 }]
      total_time := 1/5
      parallel_faster_than_sequential := false } hc
  exact ⟨h.1, h.2.1,
    h.2.2 { number := 2, square := 4, delay := 1/5, time := 1/5 } (by simp)⟩

/-- Positional access into the handler's zipped-and-mapped results list. -/
lemma zip_map_calc_getD :
    ∀ (ns ds : List ℚ) (i : ℕ), ns.length = ds.length → i < ns.length →
      ((ns.zip ds).map (fun p => calc_square p.1 p.2)).getD i dummyItem
        = calc_square (ns.getD i 0) (ds.getD i 0) := by
  intro ns
  induction ns with
  | nil =>
    intro ds i _ hi
    exact absurd hi (by simp)
  | cons n nt ih =>
    intro ds i hlen hi
    cases ds with
    | nil => simp at hlen
    | cons d dt =>
      cases i with
      | zero => simp
      | succ j =>
        simp only [List.zip_cons_cons, List.map_cons, List.getD_cons_succ]
        exact ih dt j (by simpa using hlen) (by simpa using hi)

/-- Claim C1: for equal-length non-empty inputs with non-negative delays,
the calculate operation succeeds, its results list has the same length as
`numbers`, and result `i` occupies position `i` with
`number = numbers[i]`, `square = numbers[i]^2` and `delay = delays[i]`. -/
theorem C1_results_pointwise (numbers delays : List ℚ)
    (hlen : numbers.length = delays.length) (hne : numbers ≠ [])
    (hnn : ∀ d ∈ delays, 0 ≤ d) :
    (∃ r, calculate numbers delays = Except.ok r) ∧
    (responseResults (calculate numbers delays)).length = numbers.length ∧
    ∀ i, i < numbers.length →
      ((responseResults (calculate numbers delays)).getD i dummyItem).number
          = numbers.getD i 0 ∧
      ((responseResults (calculate numbers delays)).getD i dummyItem).square
          = (numbers.getD i 0) ^ 2 ∧
      ((responseResults (calculate numbers delays)).getD i dummyItem).delay
          = delays.getD i 0 := by
  have hd : delays ≠ [] := by
    intro hnil
    apply hne
    rw [hnil] at hlen
    simpa using List.length_eq_zero.mp (by simpa using hlen)
  have hcalc := calculate_eq_ok hne hd hlen
  rw [hcalc]
  refine ⟨⟨_, rfl⟩, ?_, ?_⟩
  · simp [responseResults, List.length_zip, hlen]
  · intro i hi
    simp only [responseResults]
    rw [zip_map_calc_getD numbers delays i hlen hi]
    exact ⟨rfl, rfl, rfl⟩

/-- Witness for C1 at the spec's scenario `numbers = [2,3]`,
`delays = [0.1, 0.1]`, checked at both positions. -/
theorem C1_witness :
    (responseResults (calculate [(2 : ℚ), 3] [1/10, 1/10])).length = 2 ∧
    ((responseResults (calculate [(2 : ℚ), 3] [1/10, 1/10])).getD 0 dummyItem).number = 2 ∧
    ((responseResults (calculate [(2 : ℚ), 3] [1/10, 1/10])).getD 0 dummyItem).square
      = (2 : ℚ) ^ 2 ∧
    ((responseResults (calculate [(2 : ℚ), 3] [1/10, 1/10])).getD 0 dummyItem).delay = 1/10 ∧
    ((responseResults (calculate [(2 : ℚ), 3] [1/10, 1/10])).getD 1 dummyItem).number = 3 ∧
    ((responseResults (calculate [(2 : ℚ), 3] [1/10, 1/10])).getD 1 dummyItem).square
      = (3 : ℚ) ^ 2 ∧
    ((responseResults (calculate [(2 : ℚ), 3] [1/10, 1/10])).getD 1 dummyItem).delay = 1/10 := by
  have hnn : ∀ d ∈ [(1 : ℚ)/10, 1/10], 0 ≤ d := by
    intro d hd
    simp only [List.mem_cons, List.not_mem_nil, or_false] at hd
    rcases hd with rfl | rfl <;> norm_num
  have h := C1_results_pointwise [2, 3] [1/10, 1/10] (by decide) (by simp) hnn
  have h0 := h.2.2 0 (by decide)
  have h1 := h.2.2 1 (by decide)
  exact ⟨h.2.1, h0.1, h0.2.1, h0.2.2, h1.1, h1.2.1, h1.2.2⟩

/-- With non-negative delays the virtual fan-out span is exactly the
maximum delay. -/
lemma rawTotal_eq_max_of_nonneg :
    ∀ {l : List ℚ}, (∀ d ∈ l, 0 ≤ d) → rawTotal l = l.foldr max 0 := by
  intro l
  induction l with
  | nil => intro _; rfl
  | cons d t ih =>
    intro h
    rw [rawTotal_cons, sleepTime_of_nonneg (h d (by simp)), List.foldr_cons,
      ih (fun x hx => h x (by simp [hx]))]

lemma foldr_max_nonneg (l : List ℚ) : 0 ≤ l.foldr max 0 := by
  induction l with
  | nil => exact le_refl 0
  | cons d t ih => exact le_trans ih (le_max_right d _)

lemma foldr_max_le_sum :
    ∀ {l : List ℚ}, (∀ d ∈ l, 0 ≤ d) → l.foldr max 0 ≤ l.sum := by
  intro l
  induction l with
  | nil => intro _; simp
  | cons d t ih =>
    intro h
    have hd : 0 ≤ d := h d (by simp)
    have ht : ∀ x ∈ t, 0 ≤ x := fun x hx => h x (by simp [hx])
    have hsum : 0 ≤ t.sum := List.sum_nonneg ht
    rw [List.foldr_cons, List.sum_cons]
    exact max_le (le_add_of_nonneg_right hsum) (le_trans (ih ht) (le_add_of_nonneg_left hd))

/-- A list of non-negative rationals with at least one positive entry has
positive sum. -/
lemma sum_pos_of_filter_pos :
    ∀ {l : List ℚ}, (∀ d ∈ l, 0 ≤ d) →
      1 ≤ (l.filter (fun d => decide ((0 : ℚ) < d))).length → 0 < l.sum := by
  intro l h hp
  obtain ⟨a, ha⟩ := List.exists_mem_of_length_pos (lt_of_lt_of_le Nat.zero_lt_one hp)
  obtain ⟨hmem, hpos⟩ := List.mem_filter.mp ha
  have hapos : (0 : ℚ) < a := of_decide_eq_true hpos
  exact lt_of_lt_of_le hapos (List.single_le_sum h a hmem)

/-- With at least two strictly positive delays, the maximum is strictly
below the sum. -/
lemma foldr_max_lt_sum :
    ∀ (l : List ℚ), (∀ d ∈ l, 0 ≤ d) →
      2 ≤ (l.filter (fun d => decide ((0 : ℚ) < d))).length →
      l.foldr max 0 < l.sum := by
  intro l
  induction l with
  | nil => intro _ hp; simp at hp
  | cons d t ih =>
    intro h hp
    have hd0 : 0 ≤ d := h d (by simp)
    have ht : ∀ x ∈ t, 0 ≤ x := fun x hx => h x (by simp [hx])
    rw [List.foldr_cons, List.sum_cons]
    by_cases hdpos : (0 : ℚ) < d
    · have hfilter : (t.filter (fun d => decide ((0 : ℚ) < d))).length + 1
          = ((d :: t).filter (fun d => decide ((0 : ℚ) < d))).length := by
        simp [List.filter_cons, hdpos]
      have ht1 : 1 ≤ (t.filter (fun d => decide ((0 : ℚ) < d))).length := by omega
      have htsum : 0 < t.sum := sum_pos_of_filter_pos ht ht1
      exact max_lt (lt_add_of_pos_right d htsum)
        (lt_of_le_of_lt (foldr_max_le_sum ht) (lt_add_of_pos_left t.sum hdpos))
    · have hdz : d = 0 := le_antisymm (not_lt.mp hdpos) hd0
      subst hdz
      have ht2 : 2 ≤ (t.filter (fun d => decide ((0 : ℚ) < d))).length := by
        simpa [List.filter_cons, hdpos] using hp
      rw [max_eq_right (foldr_max_nonneg t), zero_add]
      exact ih ht ht2

/-- Claim C6: under the idealized concurrency semantics (zero scheduler
jitter), a valid request's N units run concurrently, so the measured
total wall-clock time equals `max(delays)` exactly, and it is strictly
less than `sum(delays)` whenever there is more than one delay and not
all-but-one of the delays are zero (i.e. at least two delays are
positive). -/
theorem C6_concurrent_time_bounded (numbers delays : List ℚ)
    (hlen : numbers.length = delays.length) (hne : numbers ≠ [])
    (hnn : ∀ d ∈ delays, 0 ≤ d)
    (hmany : 1 < delays.length)
    (hpos : 2 ≤ (delays.filter (fun d => decide ((0 : ℚ) < d))).length) :
    (∃ r, calculate numbers delays = Except.ok r) ∧
    rawTotal delays = delays.foldr max 0 ∧
    rawTotal delays < delays.sum := by
  have hd : delays ≠ [] := by
    intro hnil
    rw [hnil] at hmany
    simp at hmany
  refine ⟨⟨_, calculate_eq_ok hne hd hlen⟩, rawTotal_eq_max_of_nonneg hnn, ?_⟩
  rw [rawTotal_eq_max_of_nonneg hnn]
  exact foldr_max_lt_sum delays hnn hpos

/-- Witness for C6 at `numbers = [1,2]`, `delays = [0.1, 0.2]`. -/
theorem C6_witness :
    (calculate [(1 : ℚ), 2] [1/10, 1/5]).isOk = true ∧
    rawTotal [(1 : ℚ)/10, 1/5] = ([(1 : ℚ)/10, 1/5]).foldr max 0 ∧
    rawTotal [(1 : ℚ)/10, 1/5] < ([(1 : ℚ)/10, 1/5]).sum := by
  have hnn : ∀ d ∈ [(1 : ℚ)/10, 1/5], 0 ≤ d := by
    intro d hd
    simp only [List.mem_cons, List.not_mem_nil, or_false] at hd
    rcases hd with rfl | rfl <;> norm_num
  have hpos : 2 ≤ (([(1 : ℚ)/10, 1/5]).filter (fun d => decide ((0 : ℚ) < d))).length := by
    norm_num [List.filter_cons]
  have h := C6_concurrent_time_bounded [1, 2] [1/10, 1/5] (by decide) (by simp) hnn
    (by decide) hpos
  obtain ⟨r, hr⟩ := h.1
  exact ⟨by rw [hr]; rfl, h.2.1, h.2.2⟩

/-- Shape of a string matching the phone regex: either every character is
an ASCII digit (the `7`/`8` alternatives), or it begins with the two
characters `+7` and everything after the leading plus sign is a digit. -/
lemma phoneFormatOk_shape (s : List Char) (hs : phoneFormatOk s = true) :
    s.all isDigitChar = true ∨
      (s.take 2 = ['+', '7'] ∧ (s.drop 1).all isDigitChar = true) := by
  unfold phoneFormatOk at hs
  split at hs
  · rename_i rest
    simp only [Bool.and_eq_true, List.all_eq_true] at hs
    refine Or.inr ⟨rfl, ?_⟩
    simp only [List.drop_succ_cons, List.drop_zero, List.all_cons, Bool.and_eq_true,
      List.all_eq_true]
    exact ⟨by decide, hs.2⟩
  · rename_i rest
    simp only [Bool.and_eq_true, List.all_eq_true] at hs
    refine Or.inl ?_
    simp only [List.all_cons, Bool.and_eq_true, List.all_eq_true]
    exact ⟨by decide, hs.2⟩
  · rename_i rest
    simp only [Bool.and_eq_true, List.all_eq_true] at hs
    refine Or.inl ?_
    simp only [List.all_cons, Bool.and_eq_true, List.all_eq_true]
    exact ⟨by decide, hs.2⟩
  · exact absurd hs (by simp)

/-- Counterexample to claim C8 as stated: the phone input `+71234567890`
is accepted and the stored value is `+71234567890`, which contains the
non-digit character `+`; the stored value is not all digits. -/
theorem C8_counterexample :
    validate_phone "+71234567890" = some "+71234567890" ∧
    ("+71234567890".data.all isDigitChar) = false := by
  exact ⟨rfl, by decide⟩

/-- Claim C8 (amended): every phone value accepted by the validator is
stored as the input with all separator characters removed; the stored
value matches the phone format (`+7`, `7` or `8` followed by exactly ten
digits) and consists only of ASCII digit characters, apart from an
optional leading plus sign retained exactly when the stored value uses
the `+7` prefix (everything after that plus sign being digits). -/
theorem C8_stored_phone_digits (v s : String) (h : validate_phone v = some s) :
    s = cleanPhone v ∧
    phoneFormatOk s.data = true ∧
    (s.data.all isDigitChar = true ∨
      (s.data.take 2 = ['+', '7'] ∧ (s.data.drop 1).all isDigitChar = true)) := by
  simp only [validate_phone] at h
  by_cases hf : phoneFormatOk (cleanPhone v).data = true
  · rw [if_pos hf, Option.some.injEq] at h
    subst h
    exact ⟨rfl, hf, phoneFormatOk_shape _ hf⟩
  · rw [if_neg hf] at h
    exact absurd h (by simp)

/-- Witness for C8 (amended) at the accepted input `81234567890`. -/
theorem C8_witness :
    ("81234567890" : String) = cleanPhone "81234567890" ∧
    phoneFormatOk ("81234567890" : String).data = true ∧
    (("81234567890" : String).data.all isDigitChar = true ∨
      (("81234567890" : String).data.take 2 = ['+', '7'] ∧
        (("81234567890" : String).data.drop 1).all isDigitChar = true)) :=
  C8_stored_phone_digits "81234567890" "81234567890" (by rfl)

/-- Claim C10: phone validation depends only on the separator-stripped
input: two inputs equal after deleting all spaces, hyphens and parentheses
get the same outcome (both accepted with the same stored value, or both
rejected), and acceptance holds exactly when the stripped string is `+7`,
`7` or `8` followed by exactly ten digits. -/
theorem C10_separator_invariance (v1 v2 : String)
    (h : cleanPhone v1 = cleanPhone v2) :
    validate_phone v1 = validate_phone v2 ∧
    ((validate_phone v1).isSome = true ↔ phoneFormatOk (cleanPhone v1).data = true) := by
  constructor
  · simp only [validate_phone, h]
  · simp only [validate_phone]
    by_cases hf : phoneFormatOk (cleanPhone v1).data = true
    · simp [hf]
    · simp [hf]

/-- Witness for C10: `+7 (123) 456-78-90` and `+71234567890` strip to the
same string, hence validate identically (both accepted here). -/
theorem C10_witness :
    validate_phone "+7 (123) 456-78-90" = validate_phone "+71234567890" ∧
    ((validate_phone "+7 (123) 456-78-90").isSome = true ↔
      phoneFormatOk (cleanPhone "+7 (123) 456-78-90").data = true) :=
  C10_separator_invariance "+7 (123) 456-78-90" "+71234567890" (by rfl)

/-- Characterization of the name regex `[А-ЯЁ][а-яё]+` on the character
list of the value. -/
lemma nameFormatOk_iff (s : List Char) :
    nameFormatOk s = true ↔
      2 ≤ s.length ∧ (∀ c ∈ s.take 1, isUpperCyrillic c = true) ∧
      (∀ c ∈ s.drop 1, isLowerCyrillic c = true) := by
  cases s with
  | nil => simp [nameFormatOk]
  | cons c rest =>
    have hfmt : nameFormatOk (c :: rest)
        = (isUpperCyrillic c && !rest.isEmpty && rest.all isLowerCyrillic) := rfl
    rw [hfmt]
    simp only [Bool.and_eq_true, List.all_eq_true, Bool.not_eq_true',
      List.isEmpty_eq_false, List.length_cons, List.take_succ_cons, List.take_zero,
      List.drop_succ_cons, List.drop_zero, List.mem_singleton]
    constructor
    · rintro ⟨⟨hu, hne⟩, hall⟩
      refine ⟨?_, ?_, hall⟩
      · have hpos : 0 < rest.length := List.length_pos.mpr hne
        omega
      · intro x hx
        rw [hx]
        exact hu
    · rintro ⟨hlen, hup, hlow⟩
      refine ⟨⟨hup c rfl, ?_⟩, hlow⟩
      intro hnil
      rw [hnil] at hlen
      simp at hlen

/-- Claim C9: a name field is accepted if and only if it has at least two
characters, begins with one uppercase Cyrillic letter (А-Я or Ё), and all
remaining characters are lowercase Cyrillic letters (а-я or ё); in
particular a single capital, an all-caps name, and any name with Latin
letters, digits, hyphens or spaces are rejected. -/
theorem C9_name_validation_iff (v : String) :
    (validate_cyrillic_capitalized v).isSome = true ↔
      (2 ≤ v.data.length ∧ (∀ c ∈ v.data.take 1, isUpperCyrillic c = true) ∧
       (∀ c ∈ v.data.drop 1, isLowerCyrillic c = true)) := by
  rw [← nameFormatOk_iff]
  simp only [validate_cyrillic_capitalized]
  by_cases hf : nameFormatOk v.data = true
  · simp [hf]
  · simp [hf]

end WebBack
